import Mathlib

/-!
Verification of the automation-tools repository (batch file renamer and bulk
folder creator) against its natural-language specification.

The development shallowly embeds the Python source:

* `tools/common/path_utils.py` — `natural_sort_key`
* `tools/common/file_utils.py` — `list_files`, `ensure_write`
* `tools/renamer/functions.py` — `build_new_name`, `build_keep_name`
* `tools/renamer/pipeline.py` — `RenamerWorker.run` (index assignment,
  selection filter, destination resolution, write loop, finished/failed events)
* `tools/folder_creator/functions.py` — `create_folders`

Modelling conventions:

* paths are lists of path segments (`List String`);
* the filesystem is a finite map from file paths to abstract contents plus a
  set of directory paths; `shutil` failures are modelled by `Option`
  (`none` = the call raises);
* Python `float` parameters are modelled as exact fractions of integers
  (structure `PyFloat`), so `index * mul + offset` is computed exactly;
* Unicode character classes are modelled on the code points exercised by the
  theorems: the `re` digit class `\d` (Unicode Nd) is modelled by the ASCII
  digits, and the `str.isdigit` property additionally contains the superscript
  digits U+00B9, U+00B2, U+00B3 (which are the standard examples of characters
  that satisfy `isdigit` but are rejected by `int`).
-/

set_option maxRecDepth 4000

/-! ## Python character and string primitives -/

/-- Model of the `re` module's `\d` character class (Unicode category Nd),
restricted to the ASCII digits; used by `re.split(r"(\d+)", name)` in
`tools/common/path_utils.py`. -/
def isNdChar (c : Char) : Bool := c.isDigit

/-- Model of the character property behind Python `str.isdigit`: all Nd
characters plus digit-property characters such as the superscripts
U+00B9 / U+00B2 / U+00B3. -/
def isPyDigitChar (c : Char) : Bool :=
  isNdChar c || c = '¹' || c = '²' || c = '³'

/-- Python `str.isdigit()` on a piece of text: nonempty and every character has
the digit property. -/
def pyIsDigitStr (t : List Char) : Bool := !t.isEmpty && t.all isPyDigitChar

/-- Characters removed by Python `str.strip()` with no argument. -/
def isPySpace (c : Char) : Bool :=
  c = ' ' || c = '\t' || c = '\n' || c = '\r' || c = '\x0b' || c = '\x0c'

/-- Python `str.strip()`: drop leading and trailing whitespace. -/
def pyStrip (s : String) : String :=
  String.mk (((s.toList.dropWhile isPySpace).reverse.dropWhile isPySpace).reverse)

/-- Python `str.lower()` (modelled by ASCII lower-casing). -/
def pyLower (s : List Char) : List Char := s.map Char.toLower

/-- Left-pad a string with '0' up to width `w` (no truncation). -/
def zeroPad (w : ℕ) (s : String) : String :=
  if w ≤ s.length then s else String.mk (List.replicate (w - s.length) '0') ++ s

/-- Python `f"{n:0{w}d}"`: zero-padded decimal rendering of an integer; the
sign occupies one column of the field width. -/
def pyFormatPadded (n : ℤ) (w : ℕ) : String :=
  if n < 0 then "-" ++ zeroPad (w - 1) (toString n.natAbs) else zeroPad w (toString n.natAbs)

/-- Numeric value of a run of decimal digits. -/
def digitsVal (r : List Char) : ℕ :=
  r.foldl (fun acc c => 10 * acc + (c.toNat - '0'.toNat)) 0

/-! ## Natural sort key (`tools/common/path_utils.py`, lines 8-27) -/

/-- A token of a natural-sort key: Python builds a list whose elements are
`int`s (from digit runs) and `str`s (everything else). -/
inductive Tok where
  | int (n : ℤ)
  | str (s : List Char)
deriving DecidableEq, Repr

/-- Whether a token is an integer token. -/
def Tok.isInt : Tok → Bool
  | .int _ => true
  | .str _ => false

/-- Maximal runs of characters of equal digit-class, each tagged with its
class (`true` = run of Nd digits). -/
def digitRuns : List Char → List (Bool × List Char)
  | [] => []
  | c :: cs =>
    match digitRuns cs with
    | [] => [(isNdChar c, [c])]
    | (b, run) :: rest =>
      if isNdChar c = b then (b, c :: run) :: rest
      else (isNdChar c, [c]) :: (b, run) :: rest

/-- Append the empty non-digit piece `re.split` produces after a trailing
digit run (and the single empty piece produced for an empty string). -/
def addTrailingEmpty : List (Bool × List Char) → List (Bool × List Char)
  | [] => [(false, [])]
  | [(b, r)] => if b then [(b, r), (false, [])] else [(b, r)]
  | x :: xs => x :: addTrailingEmpty xs

/-- Python `re.split(r"(\d+)", s)`: the pieces of `s`, alternating non-digit
text and captured digit runs, beginning and ending with a (possibly empty)
non-digit piece. Each piece is tagged with `true` iff it is a captured digit
run. -/
def pySplit (cs : List Char) : List (Bool × List Char) :=
  let runs := digitRuns cs
  let runs2 :=
    match runs with
    | (true, r) :: rest => (false, []) :: (true, r) :: rest
    | l => l
  addTrailingEmpty runs2

/-- Conversion applied to each piece by `natural_sort_key`:
`int(t) if t.isdigit() else t.lower()`. `none` models the `ValueError` raised
by `int(t)` when `t` passes `isdigit` but contains a non-Nd character (for
example a superscript digit). -/
def pyTokenOfPiece (t : List Char) : Option Tok :=
  if pyIsDigitStr t then
    if t.all isNdChar then some (.int (digitsVal t)) else none
  else some (.str (pyLower t))

/-- The key-building loop of `natural_sort_key` (lines 24-26): convert each
piece in order; a `ValueError` anywhere aborts the whole call. -/
def tokensOfPieces : List (Bool × List Char) → Option (List Tok)
  | [] => some []
  | p :: rest =>
    match pyTokenOfPiece p.2, tokensOfPieces rest with
    | some t, some ts => some (t :: ts)
    | _, _ => none

/-- `natural_sort_key` from `tools/common/path_utils.py` applied to a file
name: split on digit runs, convert each piece, collect the key. `none` models
an uncaught `ValueError`. -/
def naturalSortKey (name : String) : Option (List Tok) :=
  tokensOfPieces (pySplit name.toList)

/-- Total variant of `naturalSortKey` that uses the split tags directly; it
agrees with `naturalSortKey` on every name free of anomalous digit characters
(see `naturalSortKey_eq_total`) and is used to model the sort order of the
pipeline. -/
def naturalKeyTotal (name : String) : List Tok :=
  (pySplit name.toList).map
    (fun p => if p.1 then .int (digitsVal p.2) else .str (pyLower p.2))

/-- The key described by the claim for C5: maximal digit runs become integer
tokens, non-digit runs become lower-cased string tokens, and empty tokens are
dropped (maximal runs are never empty, so no boundary empties appear). -/
def claimNaturalKey (name : String) : List Tok :=
  (digitRuns name.toList).map
    (fun p => if p.1 then .int (digitsVal p.2) else .str (pyLower p.2))

/-- The per-piece conversion of `naturalKeyTotal`, named for reuse in
proofs. -/
def convPiece (p : Bool × List Char) : Tok :=
  if p.1 then .int (digitsVal p.2) else .str (pyLower p.2)

/-- The tags of consecutive pieces differ (maximality of digit runs). -/
def altTags : List (Bool × List Char) → Prop
  | [] => True
  | [_] => True
  | x :: y :: t => x.1 ≠ y.1 ∧ altTags (y :: t)

/-- The piece tags alternate starting with `b`. -/
def altFromTags : Bool → List (Bool × List Char) → Prop
  | _, [] => True
  | b, x :: t => x.1 = b ∧ altFromTags (!b) t

/-! ## Ordering of keys and a stable sort -/

/-- Lexicographic order on character lists (Python `str` comparison by code
point). -/
def strLe : List Char → List Char → Bool
  | [], _ => true
  | _ :: _, [] => false
  | a :: as, b :: bs => if a = b then strLe as bs else decide (a < b)

/-- Comparison of key tokens. Python compares `int` with `int` and `str` with
`str`; on Python-produced keys a mixed comparison never occurs (see the parity
theorem for C6), so the mixed cases here are arbitrary. -/
def tokLe : Tok → Tok → Bool
  | .int m, .int n => decide (m ≤ n)
  | .str s, .str t => strLe s t
  | .int _, .str _ => true
  | .str _, .int _ => false

/-- Lexicographic order on keys (Python list comparison: element-wise, a
shorter list precedes a longer one sharing a prefix). -/
def keyLe : List Tok → List Tok → Bool
  | [], _ => true
  | _ :: _, [] => false
  | a :: as, b :: bs => if a = b then keyLe as bs else tokLe a b

/-- Insert `a` after every element `b` of an already sorted list with
`le b a`; the building block of a stable insertion sort. -/
def sortedInsert {α : Type} (le : α → α → Bool) (a : α) : List α → List α
  | [] => [a]
  | b :: l => if le b a then b :: sortedInsert le a l else a :: b :: l

/-- Stable sort (equal elements keep their original relative order), the
model of Python's stable `sorted`. -/
def stableSort {α : Type} (le : α → α → Bool) (l : List α) : List α :=
  l.foldl (fun acc x => sortedInsert le x acc) []

/-! ## Name builders (`tools/renamer/functions.py`, lines 53-139) -/

/-- Exact rational model of a Python `float` parameter: the value
`num / den`. Every IEEE double is such a fraction; the model computes with it
exactly. -/
structure PyFloat where
  num : ℤ
  den : ℕ := 1
deriving DecidableEq, Repr

/-- Round `a / b` (for `b > 0`) to the nearest integer, ties to even — the
behaviour of Python's built-in `round` on the exact value. -/
def roundHalfEvenFrac (a b : ℤ) : ℤ :=
  let f := Int.fdiv a b
  let r2 := 2 * (a - f * b)
  if r2 < b then f else if b < r2 then f + 1 else if f % 2 = 0 then f else f + 1

/-- `round(index_value * mul + off)` from `build_new_name`:
`index_value * (num / den) + off = (index_value * num + off * den) / den`
rounded half-to-even. -/
def computedIndex (indexValue : ℤ) (mul : PyFloat) (off : ℤ) : ℤ :=
  roundHalfEvenFrac (indexValue * mul.num + off * (mul.den : ℤ)) (mul.den : ℤ)

/-- Whether a (stripped, nonempty) prefix string already ends in `'_'` or
`'-'` — Python `px.endswith(("_", "-"))`. -/
def endsInSep (s : String) : Bool :=
  match s.toList.getLast? with
  | some c => c = '_' || c = '-'
  | none => false

/-- Whether a (stripped, nonempty) postfix string already starts with `'_'`
or `'-'` — Python `post.startswith(("_", "-"))`. -/
def startsInSep (s : String) : Bool :=
  match s.toList.head? with
  | some c => c = '_' || c = '-'
  | none => false

/-- `build_new_name` from `tools/renamer/functions.py` (lines 53-105).
`pre` and `post` are the source's `prefix` and `postfix` parameters. The
defensive `None` defaults of the source are not modelled (all parameters are
present), and the float product is computed exactly. -/
def buildNewName (indexValue : ℤ) (suffix : String) (padWidth : ℤ)
    (indexMul : PyFloat) (indexOffset : ℤ) (pre post : String) : String :=
  let computed := computedIndex indexValue indexMul indexOffset
  let pw := if padWidth < 0 then 0 else padWidth
  let numStr := if pw = 0 then toString computed else pyFormatPadded computed pw.toNat
  let px := pyStrip pre
  let base :=
    if px ≠ "" then px ++ (if endsInSep px then "" else "_") ++ numStr
    else numStr
  let pst := pyStrip post
  let base2 :=
    if pst ≠ "" then base ++ (if startsInSep pst then "" else "_") ++ pst
    else base
  base2 ++ suffix

/-- `build_keep_name` from `tools/renamer/functions.py` (lines 108-139). -/
def buildKeepName (originalStem : String) (suffix : String) (pre post : String) : String :=
  let px := pyStrip pre
  let base :=
    if px ≠ "" then px ++ (if endsInSep px then "" else "_") ++ originalStem
    else originalStem
  let pst := pyStrip post
  let base2 :=
    if pst ≠ "" then base ++ (if startsInSep pst then "" else "_") ++ pst
    else base
  base2 ++ suffix

/-- The name assembly described by claim C2, written from the claim's words:
`prefix + sep + digits + sep2 + postfix + extension`, with digits the rounded
transform zero-padded to `padWidth` (none when `padWidth = 0`), `sep` equal
to `"_"` unless the trimmed prefix is empty or already ends in `'_'`/`'-'`,
the symmetric rule for `sep2` on the trimmed postfix's first character, and
whitespace-only prefix/postfix treated as absent. -/
def buildNewNameClaim (indexValue : ℤ) (suffix : String) (padWidth : ℤ)
    (indexMul : PyFloat) (indexOffset : ℤ) (pre post : String) : String :=
  let computed := computedIndex indexValue indexMul indexOffset
  let digits := if padWidth = 0 then toString computed else pyFormatPadded computed padWidth.toNat
  let px := pyStrip pre
  let sep := if px = "" ∨ endsInSep px = true then "" else "_"
  let pst := pyStrip post
  let sep2 := if pst = "" ∨ startsInSep pst = true then "" else "_"
  px ++ sep ++ digits ++ sep2 ++ pst ++ suffix

/-! ## Paths -/

/-- A filesystem path, as its list of segments. -/
abbrev FPath : Type := List String

/-- The final path component (`Path.name`); `""` for the empty path. -/
def nameOf (p : FPath) : String := (List.getLast? p).getD ""

/-- The parent path (`Path.parent`, as used by the pipeline on scanned file
paths). -/
def parentOf (p : FPath) : FPath := List.dropLast p

/-- `Path.suffix`: the final dot-extension of the name, empty when the only
dot is leading or trailing or there is none. -/
def suffixOfName (name : String) : String :=
  let cs := name.toList
  match List.find? (fun k => cs.getD k ' ' = '.') ((List.range cs.length).reverse) with
  | some k => if 0 < k ∧ k + 1 < cs.length then String.mk (cs.drop k) else ""
  | none => ""

/-- `Path.stem`: the name with `suffixOfName` removed. -/
def stemOfName (name : String) : String :=
  let sfx := suffixOfName name
  String.mk (name.toList.take (name.length - sfx.length))

/-- `p.parent.relative_to(folder)` with the pipeline's `try/except` wrapper:
the segments of `parent` below `folder`, and the empty relative path when
`parent` does not lie below `folder` (the `except` branch yields `Path("")`,
which contributes no segments). -/
def relSegs (parent folder : FPath) : FPath :=
  if List.isPrefixOf folder parent then List.drop (List.length folder) parent else []

/-- The string form of a relative parent path, as Python `str(rel_parent)`:
`"."` for the empty relative path, else the segments joined with `/`. -/
def relKeyStr (rel : FPath) : String :=
  match (rel : List String) with
  | [] => "."
  | l => String.intercalate "/" l

/-- Destination resolution from `RenamerWorker.run`
(`tools/renamer/pipeline.py`, lines 167-175): when `preserve_tree` is set and
a destination root is given, the destination is
`dest_root / rel_parent / new_name`; in every other case the file is renamed
in its own directory (`src.with_name(new_name)`). -/
def resolveDst (preserveTree : Bool) (destRoot : Option FPath) (folder src : FPath)
    (newName : String) : FPath :=
  match preserveTree, destRoot with
  | true, some root => root ++ relSegs (parentOf src) folder ++ [newName]
  | _, _ => parentOf src ++ [newName]

/-! ## Filesystem model and the transactional writer
(`tools/common/file_utils.py`) -/

/-- The filesystem: regular files (paths bound to abstract content ids) and
directories. -/
structure FS where
  files : List (FPath × ℕ)
  dirs : List FPath
deriving DecidableEq, Repr

/-- Content bound to a file path, if a regular file exists there. -/
def lookupFile (fs : FS) (p : FPath) : Option ℕ := fs.files.lookup p

/-- `Path.is_file()`. -/
def isFile (fs : FS) (p : FPath) : Bool := (lookupFile fs p).isSome

/-- `Path.exists()`: a regular file or a directory is present. -/
def existsPath (fs : FS) (p : FPath) : Bool := isFile fs p || fs.dirs.contains p

/-- `Path.unlink()` on a regular file. -/
def removeFile (fs : FS) (p : FPath) : FS :=
  ⟨fs.files.filter (fun e => e.1 ≠ p), fs.dirs⟩

/-- Bind content `c` to path `p` (replacing any previous binding). -/
def setFile (fs : FS) (p : FPath) (c : ℕ) : FS :=
  ⟨fs.files.filter (fun e => e.1 ≠ p) ++ [(p, c)], fs.dirs⟩

/-- `dir.mkdir(parents=True, exist_ok=True)`: create the directory and all of
its ancestors. -/
def mkdirParents (fs : FS) (dir : FPath) : FS :=
  let pres := (List.range dir.length).map (fun i => dir.take (i + 1))
  ⟨fs.files, pres.foldl (fun ds d => if ds.contains d then ds else ds ++ [d]) fs.dirs⟩

/-- The per-file result classification of the specification's Transactional
Writer (the branches of `ensure_write`). -/
inductive WriteOutcome where
  | written
  | overwritten
  | skippedExists
deriving DecidableEq, Repr

/-- The tail of `ensure_write` after the existence check (lines 67-79 of
`tools/common/file_utils.py`): return on dry-run, otherwise create the
destination's parent directories and move or copy. `none` models a raised
filesystem error (here: the source file is missing, so `shutil` raises). -/
def writeStep (fs : FS) (src dst : FPath) (mv dr : Bool) (oc : WriteOutcome) :
    Option (FS × WriteOutcome) :=
  if dr then some (fs, oc)
  else
    match lookupFile fs src with
    | none => none
    | some c =>
      let fs1 := mkdirParents fs (parentOf dst)
      let fs2 := if mv then setFile (removeFile fs1 src) dst c else setFile fs1 dst c
      some (fs2, oc)

/-- `ensure_write` from `tools/common/file_utils.py` (lines 32-79): skip an
existing destination unless `overwrite`; under `overwrite` unlink the existing
regular file first (never under dry-run); then write. -/
def ensureWrite (fs : FS) (src dst : FPath) (mv ow dr : Bool) :
    Option (FS × WriteOutcome) :=
  if existsPath fs dst then
    if ow then
      let fs1 := if !dr && isFile fs dst then removeFile fs dst else fs
      writeStep fs1 src dst mv dr .overwritten
    else some (fs, .skippedExists)
  else writeStep fs src dst mv dr .written

/-! ## Scanner (`list_files`, `tools/common/file_utils.py` lines 8-29) -/

/-- Fuelled glob matcher for `*` and `?` wildcards.
Modelled from the spec: `pathlib` glob matching is standard-library code
outside this repository; the spec's Scanner contract only requires entries
"matching a glob pattern". -/
def globMatchFuel : ℕ → List Char → List Char → Bool
  | 0, _, _ => false
  | _ + 1, [], [] => true
  | fuel + 1, '*' :: ps, [] => globMatchFuel fuel ps []
  | fuel + 1, '*' :: ps, c :: cs =>
    globMatchFuel fuel ps (c :: cs) || globMatchFuel fuel ('*' :: ps) cs
  | fuel + 1, '?' :: ps, _ :: cs => globMatchFuel fuel ps cs
  | fuel + 1, p :: ps, c :: cs => p = c && globMatchFuel fuel ps cs
  | _ + 1, _ :: _, [] => false
  | _ + 1, [], _ :: _ => false

/-- Glob match of a pattern against a file name. -/
def globMatch (pat name : String) : Bool :=
  globMatchFuel (pat.length + name.length + 1) pat.toList name.toList

/-- Whether `p` is a regular-file path strictly below `folder` (recursive
`rglob`). -/
def isUnder (folder p : FPath) : Bool :=
  List.isPrefixOf folder p && decide (List.length folder < List.length p)

/-- Ordering of scanned paths: by `natural_sort_key` of the final path
component. -/
def pathNatLe (p q : FPath) : Bool :=
  keyLe (naturalKeyTotal (nameOf p)) (naturalKeyTotal (nameOf q))

/-- `list_files(folder, pattern, recursive=True)`: the regular files below
`folder` whose name matches the pattern, stably sorted by natural sort key.
The order of `fs.files` stands in for the unspecified `rglob` traversal
order. -/
def listFiles (fs : FS) (folder : FPath) (pattern : String) : List FPath :=
  stableSort pathNatLe
    ((fs.files.map Prod.fst).filter (fun p => isUnder folder p && globMatch pattern (nameOf p)))

/-! ## Index assignment and selection filter
(`RenamerWorker.run`, `tools/renamer/pipeline.py` lines 98-123) -/

/-- The dict key used to group a scanned path:
`str(p.parent.relative_to(folder))`, with the `except` branch mapping to
`Path("")`; both the scan root itself and non-relative parents stringify to
`"."`. -/
def groupKeyOf (folder p : FPath) : String := relKeyStr (relSegs (parentOf p) folder)

/-- `groups.setdefault(key, []).append(p)`: append `p` to the group of `key`,
creating the group at the end on first occurrence (Python dicts preserve
insertion order). -/
def addToGroups (gs : List (String × List FPath)) (key : String) (p : FPath) :
    List (String × List FPath) :=
  match gs with
  | [] => [(key, [p])]
  | (k, l) :: rest =>
    if k = key then (k, l ++ [p]) :: rest else (k, l) :: addToGroups rest key p

/-- The grouping loop of `RenamerWorker.run` (lines 102-109). -/
def buildGroups (folder : FPath) (paths : List FPath) : List (String × List FPath) :=
  paths.foldl (fun gs p => addToGroups gs (groupKeyOf folder p) p) []

/-- Case-insensitive ordering of group keys (`sorted(keys, key=s.lower)`). -/
def lowerLe (a b : String) : Bool := strLe (pyLower a.toList) (pyLower b.toList)

/-- Number the elements of a list `base, base+1, ...`
(`for idx, gp in enumerate(group_paths): pairs.append((gp, idx + base))`). -/
def numberFrom (base : ℤ) (l : List FPath) : List (FPath × ℤ) :=
  l.enum.map (fun ip => (ip.2, (ip.1 : ℤ) + base))

/-- Index assignment from `RenamerWorker.run` (lines 98-116): without
per-folder reset, a single enumeration of the scanned order from `base`;
with reset, group by relative parent key, visit groups in case-insensitive
key order, natural-sort each group and enumerate it from `base`. -/
def assignPairs (folder : FPath) (paths : List FPath) (base : ℤ) (reset : Bool) :
    List (FPath × ℤ) :=
  if !reset then numberFrom base paths
  else
    let groups := buildGroups folder paths
    let keys := stableSort lowerLe (groups.map Prod.fst)
    keys.flatMap (fun k =>
      numberFrom base (stableSort pathNatLe ((groups.lookup k).getD [])))

/-- Deduplicate a list keeping the first occurrence of each element (the
key order of a Python dict). -/
def firstDedup : List String → List String
  | [] => []
  | a :: l => a :: (firstDedup l).filter (fun x => x ≠ a)

/-- The index-assignment description of claim C3's reset mode, written from
the claim's words: entries are grouped by relative parent directory (group
extraction by filtering), groups are visited in case-insensitive order of
their relative-path string, and each group is natural-sorted and numbered
from `base` independently. -/
def assignResetClaim (folder : FPath) (paths : List FPath) (base : ℤ) :
    List (FPath × ℤ) :=
  let keys := firstDedup (paths.map (groupKeyOf folder))
  (stableSort lowerLe keys).flatMap (fun k =>
    numberFrom base (stableSort pathNatLe (paths.filter (fun p => groupKeyOf folder p = k))))

/-- The selection filter of `RenamerWorker.run` (lines 118-123): when
enabled and the divisor is truthy and positive, keep the pairs with
`(i - sel_offset) % sel_division == 0` (Python `%`, which for a positive
divisor is the mathematical modulo `Int.emod`). -/
def applyFilter (pairs : List (FPath × ℤ)) (applySel : Bool) (selOffset selDivision : ℤ) :
    List (FPath × ℤ) :=
  if applySel && !(selDivision = 0) && 0 < selDivision then
    pairs.filter (fun pi => (pi.2 - selOffset) % selDivision = 0)
  else pairs

/-! ## The run pipeline (`RenamerWorker.run`, `tools/renamer/pipeline.py`) -/

/-- The parameters of `RenamerWorker` (`pre`/`post` are the source's
`prefix`/`postfix`). -/
structure RenamerConfig where
  folder : FPath
  pattern : String
  renameMethod : String
  indexBase : ℤ
  padWidth : ℤ
  indexMul : PyFloat
  indexOffset : ℤ
  pre : String
  post : String
  applySelection : Bool
  selOffset : ℤ
  selDivision : ℤ
  resetPerFolder : Bool
  preserveTree : Bool
  destRoot : Option FPath
  move : Bool
  overwrite : Bool
  dryRun : Bool
  verbose : Bool
deriving DecidableEq, Repr

/-- The terminal event of a run: `failed(message)` or
`finished(succeeded, total)`. -/
inductive RunOutcome where
  | failed (msg : String)
  | finished (ok total : ℕ)
deriving DecidableEq, Repr

/-- What a run produces: the terminal event, the final filesystem, and the
emitted per-file log lines. -/
structure RunOut where
  result : RunOutcome
  fs : FS
  logs : List String
deriving DecidableEq, Repr

/-- The new name computed for one pair (lines 145-165): `build_keep_name` on
the stem for the keep method, `build_new_name` on the index otherwise. -/
def newNameFor (cfg : RenamerConfig) (src : FPath) (indexValue : ℤ) : String :=
  let sfx := suffixOfName (nameOf src)
  if cfg.renameMethod = "build_keep_name" then
    buildKeepName (stemOfName (nameOf src)) sfx cfg.pre cfg.post
  else
    buildNewName indexValue sfx cfg.padWidth cfg.indexMul cfg.indexOffset cfg.pre cfg.post

/-- `str(rel_parent_for_log)` with backslashes replaced and `"."` for the
root (lines 180-184). -/
def relDirStr (folder src : FPath) : String := relKeyStr (relSegs (parentOf src) folder)

/-- The destination path shown in the log (line 185). -/
def destRelPath (folder src : FPath) (newName : String) : String :=
  let rds := relDirStr folder src
  if rds ≠ "." then rds ++ "/" ++ newName else newName

/-- One log line of the write loop (lines 187-193), classified against the
current filesystem. -/
def logLine (fs : FS) (cfg : RenamerConfig) (src dst : FPath) (newName : String) : String :=
  let rds := relDirStr cfg.folder src
  let drp := destRelPath cfg.folder src newName
  let arrow := rds ++ " | " ++ nameOf src ++ " -> " ++ drp
  if existsPath fs dst then
    if !cfg.overwrite then "[skip] " ++ arrow else "[overwrite] " ++ arrow
  else (if cfg.move then "[move] " else "[copy] ") ++ arrow

/-- The write loop of `RenamerWorker.run` (lines 144-206): per pair, build
the new name, resolve the destination, log when verbose or dry-run, call
`ensure_write`, and count. On a raised filesystem error the loop stops with
`none` (the captured log text is never emitted in that case). -/
def writeLoop (cfg : RenamerConfig) : FS → List (FPath × ℤ) → ℕ → List String →
    FS × List String × Option ℕ
  | fs, [], n, logs => (fs, logs, some n)
  | fs, (src, i) :: rest, n, logs =>
    let newName := newNameFor cfg src i
    let dst := resolveDst cfg.preserveTree cfg.destRoot cfg.folder src newName
    let logs2 :=
      if cfg.verbose || cfg.dryRun then logs ++ [logLine fs cfg src dst newName] else logs
    match ensureWrite fs src dst cfg.move cfg.overwrite cfg.dryRun with
    | none => (fs, [], none)
    | some (fs2, _) => writeLoop cfg fs2 rest (n + 1) logs2

/-- The scanned-filtered-indexed pair list of a run (lines 89-123). -/
def filteredPairs (cfg : RenamerConfig) (fs : FS) : List (FPath × ℤ) :=
  applyFilter
    (assignPairs cfg.folder (listFiles fs cfg.folder cfg.pattern) cfg.indexBase cfg.resetPerFolder)
    cfg.applySelection cfg.selOffset cfg.selDivision

/-- Whether the configured folder is an existing directory (line 82). -/
def validFolder (cfg : RenamerConfig) (fs : FS) : Bool := fs.dirs.contains cfg.folder

/-- `RenamerWorker.run` (`tools/renamer/pipeline.py`, lines 76-217): validate
the folder, scan, assign indices, filter, run the write loop, and emit
`finished(count_ok, count_total)` or `failed(message)`. Progress events and
logger calls are not modelled; the emitted log text is. -/
def runRenamer (cfg : RenamerConfig) (fs : FS) : RunOut :=
  if !validFolder cfg fs then ⟨.failed "invalid folder", fs, []⟩
  else
    let paths := listFiles fs cfg.folder cfg.pattern
    if paths.length = 0 then ⟨.finished 0 0, fs, []⟩
    else
      let pairs := filteredPairs cfg fs
      if pairs.length = 0 then ⟨.finished 0 0, fs, []⟩
      else
        match writeLoop cfg fs pairs 0 [] with
        | (fsc, _, none) => ⟨.failed "filesystem error", fsc, []⟩
        | (fs2, logs, some m) => ⟨.finished m pairs.length, fs2, logs⟩

/-! ## Folder creator (`tools/folder_creator/functions.py`, lines 26-78) -/

/-- The name of the i-th created folder:
`f"{prefix}_{index:0{padding}d}_{suffix}"`. -/
def folderCreatorName (pre sfx : String) (padding : ℕ) (index : ℤ) : String :=
  pre ++ "_" ++ pyFormatPadded index padding ++ "_" ++ sfx

/-- The creation loop of `create_folders`: create each folder unless it
already exists, and collect every folder path in order either way. -/
def createLoop (parent : FPath) (pre sfx : String) (padding : ℕ) :
    FS → List ℤ → FS × List FPath
  | fs, [] => (fs, [])
  | fs, i :: rest =>
    let p := parent ++ [folderCreatorName pre sfx padding i]
    let fs1 := if existsPath fs p then fs else mkdirParents fs p
    let r := createLoop parent pre sfx padding fs1 rest
    (r.1, p :: r.2)

/-- `create_folders` from `tools/folder_creator/functions.py`: ensure the
parent directory, then create `count` folders named
`prefix_paddedIndex_suffix` starting at `start_index`, returning all of their
paths. -/
def createFolders (fs : FS) (parent : FPath) (count : ℕ) (pre sfx : String)
    (padding : ℕ) (startIndex : ℤ) : FS × List FPath :=
  let fs0 := if existsPath fs parent then fs else mkdirParents fs parent
  createLoop parent pre sfx padding fs0
    ((List.range count).map (fun k : ℕ => startIndex + (k : ℤ)))

/-! ## Concrete fixtures used by witnesses -/

/-- A concrete dry-run configuration used by witnesses. -/
def cfgW : RenamerConfig :=
  { folder := ["root"], pattern := "*", renameMethod := "build_new_name",
    indexBase := 1, padWidth := 4, indexMul := ⟨1, 1⟩, indexOffset := 0,
    pre := "frame", post := "", applySelection := false, selOffset := 0,
    selDivision := 0, resetPerFolder := false, preserveTree := false,
    destRoot := none, move := false, overwrite := false, dryRun := true,
    verbose := false }

/-- A concrete filesystem with two files used by witnesses. -/
def fsW : FS :=
  ⟨[(["root", "a1.txt"], 0), (["root", "sub", "b2.txt"], 1)], [["root"], ["root", "sub"]]⟩

/-! ## Helper lemmas -/

theorem string_append_empty (s : String) : s ++ "" = s := by
  cases s with
  | mk data => show String.mk (data ++ []) = String.mk data
               rw [List.append_nil]

theorem string_empty_append (s : String) : "" ++ s = s := rfl

/-! ## Claim theorems -/

/-- C1: the specification's Destination Resolver claims three behaviours:
in-place, mirrored tree with structure preserved
(`dest_root / rel_parent / new_name`), and mirrored tree without structure
preserved (`dest_root / new_name`, flattened). The pipeline implements only
the first two: at the failing input (source `root/sub/a.txt` under scan root
`root`, new name `b.txt`, destination root `out`) the resolver of
`RenamerWorker.run` yields `out/sub/b.txt` when `preserve_tree` is set and the
in-place `root/sub/b.txt` otherwise, and no parameter value produces the
flattened `out/b.txt` the claim requires for mirrored-tree mode without
structure preservation. -/
theorem c1_flatten_mode_not_implemented :
    resolveDst true (some ["out"]) ["root"] ["root", "sub", "a.txt"] "b.txt" =
      ["out", "sub", "b.txt"] ∧
    resolveDst false (some ["out"]) ["root"] ["root", "sub", "a.txt"] "b.txt" =
      ["root", "sub", "b.txt"] ∧
    ∀ pt : Bool,
      resolveDst pt (some ["out"]) ["root"] ["root", "sub", "a.txt"] "b.txt" ≠
        ["out", "b.txt"] := by
  refine ⟨by decide, by decide, ?_⟩
  intro pt
  cases pt <;> decide

/-- C2: for every index, extension, non-negative pad width, multiplier
(modelled as an exact fraction), offset, prefix and postfix, `build_new_name`
returns exactly the assembly described by the claim — trimmed prefix,
separator, half-to-even-rounded zero-padded digits, second separator, trimmed
postfix, extension — and in particular
`build_new_name(1, ".bmp", 4, 1.0, 0, "frame", "") = "frame_0001.bmp"`. -/
theorem c2_build_new_name_matches_claim :
    (∀ (i : ℤ) (sfx : String) (pad : ℤ) (mul : PyFloat) (off : ℤ) (pre post : String),
      0 ≤ pad →
      buildNewName i sfx pad mul off pre post = buildNewNameClaim i sfx pad mul off pre post) ∧
    buildNewName 1 ".bmp" 4 ⟨1, 1⟩ 0 "frame" "" = "frame_0001.bmp" := by
  refine ⟨?_, by decide⟩
  intro i sfx pad mul off pre post hpad
  simp only [buildNewName, buildNewNameClaim]
  rw [if_neg (by omega : ¬ pad < 0)]
  by_cases h1 : pyStrip pre = "" <;>
    by_cases h2 : endsInSep (pyStrip pre) = true <;>
      by_cases h3 : pyStrip post = "" <;>
        by_cases h4 : startsInSep (pyStrip post) = true <;>
          simp [h1, h2, h3, h4, string_append_empty, string_empty_append]

/-- C2 witness: the universally quantified part applied at a concrete input
with the hypothesis discharged. -/
theorem c2_build_new_name_matches_claim_witness :
    (0 : ℤ) ≤ 3 ∧
    buildNewName 2 ".png" 3 ⟨3, 2⟩ (-1) " pre " "-x" =
      buildNewNameClaim 2 ".png" 3 ⟨3, 2⟩ (-1) " pre " "-x" :=
  ⟨by decide, c2_build_new_name_matches_claim.1 2 ".png" 3 ⟨3, 2⟩ (-1) " pre " "-x" (by decide)⟩

/-- C4: the selection filter passes the pair list through unchanged when
disabled or when the divisor is non-positive; otherwise it retains, in the
original order, exactly the pairs with `(index - offset) mod divisor = 0`
(the mathematical modulo `Int.emod`, which is Python's `%` for a positive
divisor); in particular with offset 1 and divisor 3 over indices 1..6 it
keeps exactly the entries with indices 1 and 4. -/
theorem c4_selection_filter :
    (∀ (pairs : List (FPath × ℤ)) (applySel : Bool) (so sd : ℤ),
      applySel = false ∨ sd ≤ 0 → applyFilter pairs applySel so sd = pairs) ∧
    (∀ (pairs : List (FPath × ℤ)) (so sd : ℤ),
      0 < sd →
      applyFilter pairs true so sd = pairs.filter (fun pi => (pi.2 - so) % sd = 0)) ∧
    applyFilter
        [(["p1"], 1), (["p2"], 2), (["p3"], 3), (["p4"], 4), (["p5"], 5), (["p6"], 6)]
        true 1 3 =
      [(["p1"], 1), (["p4"], 4)] := by
  refine ⟨?_, ?_, by decide⟩
  · intro pairs applySel so sd h
    rcases h with h | h
    · simp [applyFilter, h]
    · have hns : ¬ (0 < sd) := by omega
      simp [applyFilter, hns]
  · intro pairs so sd h
    have hne : ¬ (sd = 0) := by omega
    simp [applyFilter, h, hne]

/-- C4 witness: the pass-through part applied at a concrete disabled call,
and the congruence part at a concrete enabled call. -/
theorem c4_selection_filter_witness :
    ((false = false ∨ (5 : ℤ) ≤ 0) ∧
      applyFilter [(["a"], 1)] false 0 5 = [(["a"], 1)]) ∧
    ((0 : ℤ) < 2 ∧
      applyFilter [(["a"], 1), (["b"], 2)] true 0 2 =
        [(["a"], 1), (["b"], 2)].filter (fun pi => (pi.2 - 0) % 2 = 0)) :=
  ⟨⟨Or.inl rfl, c4_selection_filter.1 [(["a"], 1)] false 0 5 (Or.inl rfl)⟩,
   ⟨by decide, c4_selection_filter.2.1 [(["a"], 1), (["b"], 2)] 0 2 (by decide)⟩⟩

/-- C8: whenever the destination exists and `overwrite` is false,
`ensure_write` returns the skipped-exists outcome and leaves the filesystem —
in particular both the source file and the existing destination file —
completely unchanged, for every dry-run and move flag. -/
theorem c8_skip_existing_no_mutation :
    ∀ (fs : FS) (src dst : FPath) (mv dr : Bool),
      existsPath fs dst = true →
      ensureWrite fs src dst mv false dr = some (fs, WriteOutcome.skippedExists) := by
  intro fs src dst mv dr h
  simp [ensureWrite, h]

/-- C8 witness: applied at a concrete filesystem where the destination
already exists. -/
theorem c8_skip_existing_no_mutation_witness :
    existsPath fsW ["root", "sub", "b2.txt"] = true ∧
    ensureWrite fsW ["root", "a1.txt"] ["root", "sub", "b2.txt"] true false false =
      some (fsW, WriteOutcome.skippedExists) :=
  ⟨by decide,
   c8_skip_existing_no_mutation fsW ["root", "a1.txt"] ["root", "sub", "b2.txt"] true false
     (by decide)⟩

theorem createLoop_snd (parent : FPath) (pre sfx : String) (padding : ℕ) :
    ∀ (indices : List ℤ) (fs : FS),
      (createLoop parent pre sfx padding fs indices).2 =
        indices.map (fun i => parent ++ [folderCreatorName pre sfx padding i]) := by
  intro indices
  induction indices with
  | nil => intro fs; rfl
  | cons i rest ih => intro fs; simp [createLoop, ih]

/-- C10: `create_folders` returns a list of exactly `count` paths whose k-th
element (0-based) is the parent directory extended with the name
`prefix_paddedIndex_suffix` for index `start_index + k`; the returned list —
including its order and the entries whose folder already existed — depends
only on the parameters, never on the prior filesystem state, so an existing
folder is not an error and is still included in order. -/
theorem c10_create_folders_names :
    ∀ (fs : FS) (parent : FPath) (count : ℕ) (pre sfx : String) (padding : ℕ)
      (startIndex : ℤ),
      ((createFolders fs parent count pre sfx padding startIndex).2).length = count ∧
      ∀ k : ℕ,
        ((createFolders fs parent count pre sfx padding startIndex).2)[k]? =
          (if k < count then
            some (parent ++ [folderCreatorName pre sfx padding (startIndex + (k : ℤ))])
          else none) := by
  intro fs parent count pre sfx padding startIndex
  have hsnd :
      (createFolders fs parent count pre sfx padding startIndex).2 =
        ((List.range count).map (fun k : ℕ => startIndex + (k : ℤ))).map
          (fun i => parent ++ [folderCreatorName pre sfx padding i]) := by
    simp only [createFolders]
    rw [createLoop_snd]
  constructor
  · rw [hsnd, List.length_map, List.length_map, List.length_range]
  · intro k
    rw [hsnd, List.getElem?_map, List.getElem?_map]
    by_cases hk : k < count
    · rw [List.getElem?_range hk]
      simp [hk]
    · have hnone : (List.range count)[k]? = none := by
        rw [List.getElem?_eq_none_iff, List.length_range]
        omega
      rw [hnone]
      simp [hk]

theorem ensureWrite_dryRun (fs : FS) (src dst : FPath) (mv ow : Bool) :
    ensureWrite fs src dst mv ow true =
      some (fs,
        if existsPath fs dst then
          (if ow then WriteOutcome.overwritten else WriteOutcome.skippedExists)
        else WriteOutcome.written) := by
  by_cases h : existsPath fs dst = true <;> by_cases how : ow = true <;>
    simp_all [ensureWrite, writeStep]

theorem writeLoop_dryRun (cfg : RenamerConfig) (hdr : cfg.dryRun = true) :
    ∀ (pairs : List (FPath × ℤ)) (fs : FS) (n : ℕ) (logs : List String),
      ∃ logs2,
        writeLoop cfg fs pairs n logs = (fs, logs2, some (n + pairs.length)) ∧
        logs2.length = logs.length + pairs.length := by
  intro pairs
  induction pairs with
  | nil => intro fs n logs; exact ⟨logs, by simp [writeLoop], by simp⟩
  | cons hd rest ih =>
    intro fs n logs
    obtain ⟨src, i⟩ := hd
    obtain ⟨logs2, h1, h2⟩ :=
      ih fs (n + 1)
        (logs ++ [logLine fs cfg src
          (resolveDst cfg.preserveTree cfg.destRoot cfg.folder src (newNameFor cfg src i))
          (newNameFor cfg src i)])
    refine ⟨logs2, ?_, ?_⟩
    · simp only [writeLoop, hdr, Bool.or_true, if_true, ensureWrite_dryRun]
      rw [h1]
      simp [Nat.add_assoc, Nat.add_comm 1]
    · simp at h2
      simp [h2]
      omega

theorem writeLoop_count (cfg : RenamerConfig) :
    ∀ (pairs : List (FPath × ℤ)) (fs : FS) (n : ℕ) (logs : List String)
      (fs2 : FS) (logs2 : List String) (m : ℕ),
      writeLoop cfg fs pairs n logs = (fs2, logs2, some m) → m = n + pairs.length := by
  intro pairs
  induction pairs with
  | nil =>
    intro fs n logs fs2 logs2 m h
    simp [writeLoop] at h ⊢
    omega
  | cons hd rest ih =>
    intro fs n logs fs2 logs2 m h
    obtain ⟨src, i⟩ := hd
    simp only [writeLoop] at h
    rcases he : ensureWrite fs src
        (resolveDst cfg.preserveTree cfg.destRoot cfg.folder src (newNameFor cfg src i))
        cfg.move cfg.overwrite cfg.dryRun with _ | ⟨fs3, oc⟩
    · rw [he] at h
      simp at h
    · rw [he] at h
      have := ih fs3 (n + 1) _ fs2 logs2 m h
      simp [this]
      omega

/-- C7: a dry-run invocation of the renamer pipeline performs no filesystem
mutation whatsoever — the filesystem after the run is the one before it, for
every configuration and starting state — while the per-file log lines (with
their skip/overwrite/move/copy classification) are still produced, one line
per filtered entry whenever the scan root is valid. -/
theorem c7_dry_run_no_mutation :
    ∀ (cfg : RenamerConfig) (fs : FS),
      cfg.dryRun = true →
      (runRenamer cfg fs).fs = fs ∧
      (runRenamer cfg fs).logs.length =
        (if validFolder cfg fs = true then (filteredPairs cfg fs).length else 0) := by
  intro cfg fs hdr
  by_cases hv : validFolder cfg fs = true
  · by_cases hp : (listFiles fs cfg.folder cfg.pattern).length = 0
    · have hfp : filteredPairs cfg fs = [] := by
        have hnil : listFiles fs cfg.folder cfg.pattern = [] := List.length_eq_zero.mp hp
        have hassign : assignPairs cfg.folder [] cfg.indexBase cfg.resetPerFolder = [] := by
          by_cases hr : cfg.resetPerFolder = true <;>
            simp [assignPairs, hr, numberFrom, buildGroups, stableSort]
        simp [filteredPairs, hnil, hassign, applyFilter]
      simp [runRenamer, hv, hp, hfp]
    · by_cases hq : (filteredPairs cfg fs).length = 0
      · simp [runRenamer, hv, hp, hq]
      · obtain ⟨logs2, h1, h2⟩ := writeLoop_dryRun cfg hdr (filteredPairs cfg fs) fs 0 []
        simp [runRenamer, hv, hp, hq, h1]
        simpa using h2
  · simp [runRenamer, hv]

/-- C7 witness: the theorem applied to the concrete dry-run configuration and
filesystem. -/
theorem c7_dry_run_no_mutation_witness :
    cfgW.dryRun = true ∧
    ((runRenamer cfgW fsW).fs = fsW ∧
      (runRenamer cfgW fsW).logs.length =
        (if validFolder cfgW fsW = true then (filteredPairs cfgW fsW).length else 0)) :=
  ⟨rfl, c7_dry_run_no_mutation cfgW fsW rfl⟩

/-- C9: whenever a run of the renamer pipeline terminates by emitting
`finished(succeeded, total)` — failures, including raised filesystem errors,
emit `failed` instead — the succeeded count equals the total count, because
every filtered entry handed to the writer is counted regardless of its
skip/overwrite/move/copy outcome; moreover on a valid scan root a dry run
(whose writer never raises) always does emit `finished(n, n)`. -/
theorem c9_finished_counts_all_processed :
    (∀ (cfg : RenamerConfig) (fs : FS) (ok total : ℕ),
      (runRenamer cfg fs).result = RunOutcome.finished ok total → ok = total) ∧
    (∀ (cfg : RenamerConfig) (fs : FS),
      validFolder cfg fs = true → cfg.dryRun = true →
      ∃ n, (runRenamer cfg fs).result = RunOutcome.finished n n) := by
  constructor
  · intro cfg fs ok total h
    by_cases hv : validFolder cfg fs = true
    · by_cases hp : (listFiles fs cfg.folder cfg.pattern).length = 0
      · simp [runRenamer, hv, hp] at h
        omega
      · by_cases hq : (filteredPairs cfg fs).length = 0
        · simp [runRenamer, hv, hp, hq] at h
          omega
        · rcases hw : writeLoop cfg fs (filteredPairs cfg fs) 0 [] with ⟨fsc, logsc, mo⟩
          rcases mo with _ | m
          · simp [runRenamer, hv, hp, hq, hw] at h
          · have hm := writeLoop_count cfg (filteredPairs cfg fs) fs 0 [] fsc logsc m hw
            simp [runRenamer, hv, hp, hq, hw] at h
            omega
    · simp [runRenamer, hv] at h
  · intro cfg fs hv hdr
    by_cases hp : (listFiles fs cfg.folder cfg.pattern).length = 0
    · exact ⟨0, by simp [runRenamer, hv, hp]⟩
    · by_cases hq : (filteredPairs cfg fs).length = 0
      · exact ⟨0, by simp [runRenamer, hv, hp, hq]⟩
      · obtain ⟨logs2, h1, _⟩ := writeLoop_dryRun cfg hdr (filteredPairs cfg fs) fs 0 []
        exact ⟨(filteredPairs cfg fs).length, by simp [runRenamer, hv, hp, hq, h1]⟩

/-- C9 witness: the counting part applied to a concrete finished run. -/
theorem c9_finished_counts_all_processed_witness : (2 : ℕ) = 2 :=
  c9_finished_counts_all_processed.1 cfgW fsW 2 2 (by decide)

theorem addToGroups_lookup (gs : List (String × List FPath)) (key : String) (p : FPath) :
    ∀ k, (addToGroups gs key p).lookup k =
      if k = key then some (((gs.lookup key).getD []) ++ [p]) else gs.lookup k := by
  induction gs with
  | nil =>
    intro k
    by_cases hk : k = key
    · have hb : (k == key) = true := by simp [hk]
      simp [addToGroups, List.lookup, hk, hb]
    · have hb : (k == key) = false := by simp [hk]
      simp [addToGroups, List.lookup, hk, hb]
  | cons e gs' ih =>
    intro k
    obtain ⟨a, l⟩ := e
    by_cases ha : a = key
    · subst ha
      by_cases hk : k = a
      · have hb : (k == a) = true := by simp [hk]
        have hb2 : (a == a) = true := by simp
        simp [addToGroups, List.lookup, hk, hb, hb2]
      · have hb : (k == a) = false := by simp [hk]
        simp [addToGroups, List.lookup, hk, hb]
    · have hb0 : (a == key) = false := by simp [ha]
      have hb1 : (key == a) = false := by
        simp
        exact fun h => ha (h ▸ rfl)
      by_cases hk : k = key
      · subst hk
        have hka : (k == a) = false := by
          simp
          exact fun h => ha (h ▸ rfl)
        simp [addToGroups, List.lookup, ha, hka, ih, hb1]
      · by_cases hka : k = a
        · subst hka
          have hb2 : (k == k) = true := by simp
          simp [addToGroups, List.lookup, ha, hk, ih, hb2]
        · have hb2 : (k == a) = false := by simp [hka]
          simp [addToGroups, List.lookup, ha, hk, hka, ih, hb2]

theorem buildGroups_lookup_gen (folder : FPath) :
    ∀ (paths : List FPath) (gs : List (String × List FPath)) (k : String),
      (((paths.foldl (fun gs p => addToGroups gs (groupKeyOf folder p) p) gs).lookup k).getD []) =
        ((gs.lookup k).getD []) ++ paths.filter (fun p => groupKeyOf folder p = k) := by
  intro paths
  induction paths with
  | nil => intro gs k; simp
  | cons p paths' ih =>
    intro gs k
    simp only [List.foldl_cons]
    rw [ih]
    by_cases hk : groupKeyOf folder p = k
    · rw [addToGroups_lookup]
      rw [if_pos hk.symm]
      simp [hk, List.filter_cons]
    · rw [addToGroups_lookup]
      rw [if_neg (fun h => hk h.symm)]
      simp [hk, List.filter_cons]

theorem buildGroups_lookup (folder : FPath) (paths : List FPath) (k : String) :
    (((buildGroups folder paths).lookup k).getD []) =
      paths.filter (fun p => groupKeyOf folder p = k) := by
  have := buildGroups_lookup_gen folder paths [] k
  simpa [buildGroups] using this

theorem addToGroups_map_fst (gs : List (String × List FPath)) (key : String) (p : FPath) :
    (addToGroups gs key p).map Prod.fst =
      if key ∈ gs.map Prod.fst then gs.map Prod.fst
      else gs.map Prod.fst ++ [key] := by
  induction gs with
  | nil => simp [addToGroups]
  | cons e gs' ih =>
    obtain ⟨a, l⟩ := e
    by_cases ha : a = key
    · subst ha
      simp [addToGroups]
    · have hka : ¬ key = a := fun h => ha h.symm
      by_cases hmem : key ∈ gs'.map Prod.fst
      · simp [addToGroups, ha, ih, hmem, hka]
      · simp [addToGroups, ha, ih, hmem, hka]

theorem firstDedup_filter (pr : String → Bool) :
    ∀ l : List String, firstDedup (l.filter pr) = (firstDedup l).filter pr := by
  intro l
  induction l with
  | nil => simp [firstDedup]
  | cons a l ih =>
    have h2 : ∀ m : List String,
        firstDedup (a :: m) = a :: (firstDedup m).filter (fun x => x ≠ a) := fun m => rfl
    by_cases pa : pr a = true
    · have h1 : List.filter pr (a :: l) = a :: List.filter pr l := by
        simp [List.filter_cons, pa]
      rw [h1, h2, h2, ih]
      have h3 : List.filter pr (a :: (firstDedup l).filter (fun x => x ≠ a)) =
          a :: List.filter pr ((firstDedup l).filter (fun x => x ≠ a)) := by
        simp [List.filter_cons, pa]
      rw [h3]
      congr 1
      rw [List.filter_filter, List.filter_filter]
      apply List.filter_congr
      intro x _
      rw [Bool.and_comm]
    · have pa' : pr a = false := by simpa using pa
      have h1 : List.filter pr (a :: l) = List.filter pr l := by
        simp [List.filter_cons, pa']
      rw [h1, ih, h2]
      have h3 : List.filter pr (a :: (firstDedup l).filter (fun x => x ≠ a)) =
          List.filter pr ((firstDedup l).filter (fun x => x ≠ a)) := by
        simp [List.filter_cons, pa']
      rw [h3, List.filter_filter]
      apply List.filter_congr
      intro x _
      by_cases hx : x = a
      · subst hx; simp [pa']
      · simp [hx]

theorem buildGroups_map_fst_gen (folder : FPath) :
    ∀ (paths : List FPath) (gs : List (String × List FPath)),
      ((paths.foldl (fun gs p => addToGroups gs (groupKeyOf folder p) p) gs).map Prod.fst) =
        gs.map Prod.fst ++
          firstDedup ((paths.map (groupKeyOf folder)).filter
            (fun k => decide (k ∉ gs.map Prod.fst))) := by
  intro paths
  induction paths with
  | nil => intro gs; simp [firstDedup]
  | cons p paths' ih =>
    intro gs
    simp only [List.foldl_cons, List.map_cons, List.filter_cons]
    rw [ih]
    rw [addToGroups_map_fst]
    by_cases hmem : groupKeyOf folder p ∈ gs.map Prod.fst
    · have hd : (decide (groupKeyOf folder p ∉ gs.map Prod.fst)) = false := by simp [hmem]
      rw [if_pos hmem, hd]
      simp
    · have hd : (decide (groupKeyOf folder p ∉ gs.map Prod.fst)) = true := by simp [hmem]
      rw [if_neg hmem, hd]
      have hpr :
          (paths'.map (groupKeyOf folder)).filter
              (fun k => decide (k ∉ gs.map Prod.fst ++ [groupKeyOf folder p])) =
            ((paths'.map (groupKeyOf folder)).filter
              (fun k => decide (k ∉ gs.map Prod.fst))).filter
              (fun x => x ≠ groupKeyOf folder p) := by
        rw [List.filter_filter]
        apply List.filter_congr
        intro x _
        by_cases hx : x = groupKeyOf folder p
        · subst hx; simp
        · simp [hx]
      rw [hpr, firstDedup_filter]
      show _ = _ ++ firstDedup (groupKeyOf folder p :: _)
      rw [show ∀ (a : String) (m : List String),
            firstDedup (a :: m) = a :: (firstDedup m).filter (fun x => x ≠ a) from
          fun a m => rfl]
      simp [List.append_assoc]

theorem buildGroups_map_fst (folder : FPath) (paths : List FPath) :
    (buildGroups folder paths).map Prod.fst = firstDedup (paths.map (groupKeyOf folder)) := by
  have := buildGroups_map_fst_gen folder paths []
  simpa [buildGroups] using this

/-- C3: without per-folder reset, the pair assigned at position `k` of the
scanned order is the `k`-th entry with index `base + k` (for every position,
in-range or not); with reset, the assignment equals the claim's description —
entries grouped by relative parent key (group membership by filtering, dict
key order being first occurrence), groups visited in case-insensitive order
of their relative-path string, and each group natural-sorted and numbered
from `base` independently. -/
theorem c3_index_assignment :
    (∀ (folder : FPath) (paths : List FPath) (base : ℤ) (k : ℕ),
      (assignPairs folder paths base false)[k]? =
        (paths[k]?).map (fun p => (p, base + (k : ℤ)))) ∧
    (∀ (folder : FPath) (paths : List FPath) (base : ℤ),
      assignPairs folder paths base true = assignResetClaim folder paths base) := by
  constructor
  · intro folder paths base k
    simp only [assignPairs, Bool.not_false, if_true, numberFrom]
    rw [List.getElem?_map, List.getElem?_enum]
    cases h : paths[k]? <;> simp [Int.add_comm]
  · intro folder paths base
    simp only [assignPairs, assignResetClaim, Bool.not_true, Bool.false_eq_true, if_false]
    rw [buildGroups_map_fst]
    have hfun :
        (fun k => numberFrom base (stableSort pathNatLe
            (((buildGroups folder paths).lookup k).getD []))) =
          (fun k => numberFrom base (stableSort pathNatLe
            (paths.filter (fun p => groupKeyOf folder p = k)))) :=
      funext (fun k => by rw [buildGroups_lookup])
    rw [hfun]

theorem digitRuns_inv (cs : List Char) :
    ∀ pr ∈ digitRuns cs, pr.2 ≠ [] ∧ ∀ c ∈ pr.2, isNdChar c = pr.1 ∧ c ∈ cs := by
  induction cs with
  | nil => intro pr hpr; simp [digitRuns] at hpr
  | cons c cs ih =>
    intro pr hpr
    rcases h : digitRuns cs with _ | ⟨⟨b, run⟩, rest⟩
    · rw [digitRuns, h] at hpr
      simp at hpr
      subst hpr
      refine ⟨by simp, ?_⟩
      intro c' hc'
      simp at hc'
      subst hc'
      simp
    · rw [digitRuns, h] at hpr
      dsimp only at hpr
      by_cases hEq : isNdChar c = b
      · rw [if_pos hEq] at hpr
        rcases List.mem_cons.mp hpr with hpr | hpr
        · subst hpr
          refine ⟨by simp, ?_⟩
          intro c' hc'
          rcases List.mem_cons.mp hc' with hc' | hc'
          · subst hc'
            exact ⟨hEq, List.mem_cons_self _ _⟩
          · have := (ih (b, run) (by rw [h]; exact List.mem_cons_self _ _)).2 c' hc'
            exact ⟨this.1, List.mem_cons_of_mem _ this.2⟩
        · have hmem : pr ∈ digitRuns cs := by rw [h]; exact List.mem_cons_of_mem _ hpr
          have := ih pr hmem
          refine ⟨this.1, ?_⟩
          intro c' hc'
          exact ⟨(this.2 c' hc').1, List.mem_cons_of_mem _ (this.2 c' hc').2⟩
      · rw [if_neg hEq] at hpr
        rcases List.mem_cons.mp hpr with hpr | hpr
        · subst hpr
          refine ⟨by simp, ?_⟩
          intro c' hc'
          simp at hc'
          subst hc'
          simp
        · have hmem : pr ∈ digitRuns cs := by rw [h]; exact hpr
          have := ih pr hmem
          refine ⟨this.1, ?_⟩
          intro c' hc'
          exact ⟨(this.2 c' hc').1, List.mem_cons_of_mem _ (this.2 c' hc').2⟩

theorem addTrailingEmpty_mem :
    ∀ (l : List (Bool × List Char)) (x : Bool × List Char),
      x ∈ addTrailingEmpty l → x ∈ l ∨ x = (false, []) := by
  intro l
  induction l with
  | nil =>
    intro x hx
    right
    simpa [addTrailingEmpty] using hx
  | cons a l ih =>
    intro x hx
    cases l with
    | nil =>
      obtain ⟨b, r⟩ := a
      by_cases hb : b = true
      · subst hb
        simp [addTrailingEmpty] at hx
        rcases hx with hx | hx
        · left; simp [hx]
        · right; simp [hx]
      · have hb' : b = false := by simpa using hb
        subst hb'
        simp [addTrailingEmpty] at hx
        left; simp [hx]
    | cons a2 l2 =>
      rw [show addTrailingEmpty (a :: a2 :: l2) = a :: addTrailingEmpty (a2 :: l2) from rfl] at hx
      rcases List.mem_cons.mp hx with hx | hx
      · left; simp [hx]
      · rcases ih x hx with hx2 | hx2
        · left; exact List.mem_cons_of_mem _ hx2
        · right; exact hx2

theorem pySplit_mem (cs : List Char) :
    ∀ x ∈ pySplit cs, x ∈ digitRuns cs ∨ x = (false, []) := by
  intro x hx
  rw [pySplit] at hx
  rcases h : digitRuns cs with _ | ⟨⟨b, r⟩, rest⟩
  · rw [h] at hx
    dsimp only at hx
    right
    simpa [addTrailingEmpty] using hx
  · rw [h] at hx
    cases b with
    | true =>
      dsimp only at hx
      rw [show addTrailingEmpty ((false, []) :: (true, r) :: rest) =
            (false, []) :: addTrailingEmpty ((true, r) :: rest) from rfl] at hx
      rcases List.mem_cons.mp hx with hx | hx
      · right; exact hx
      · rcases addTrailingEmpty_mem _ x hx with hx2 | hx2
        · left; exact hx2
        · right; exact hx2
    | false =>
      dsimp only at hx
      rcases addTrailingEmpty_mem _ x hx with hx2 | hx2
      · left; exact hx2
      · right; exact hx2

theorem pySplit_pieces (cs : List Char) :
    ∀ pr ∈ pySplit cs,
      (pr.1 = true → pr.2 ≠ [] ∧ ∀ c ∈ pr.2, isNdChar c = true ∧ c ∈ cs) ∧
      (pr.1 = false → ∀ c ∈ pr.2, isNdChar c = false ∧ c ∈ cs) := by
  intro pr hpr
  rcases pySplit_mem cs pr hpr with hm | hm
  · have := digitRuns_inv cs pr hm
    constructor
    · intro h1
      refine ⟨this.1, ?_⟩
      intro c hc
      have h2 := this.2 c hc
      rw [h1] at h2
      exact h2
    · intro h1
      intro c hc
      have h2 := this.2 c hc
      rw [h1] at h2
      exact h2
  · subst hm
    constructor
    · intro h1
      simp at h1
    · intro _
      intro c hc
      simp at hc

theorem tokensOfPieces_eq_map (f : Bool × List Char → Tok) :
    ∀ l : List (Bool × List Char),
      (∀ p ∈ l, pyTokenOfPiece p.2 = some (f p)) →
      tokensOfPieces l = some (l.map f) := by
  intro l
  induction l with
  | nil => intro _; rfl
  | cons p rest ih =>
    intro h
    have hp := h p (List.mem_cons_self _ _)
    have hr := ih (fun q hq => h q (List.mem_cons_of_mem _ hq))
    rw [tokensOfPieces, hp, hr]
    rfl

theorem isNd_imp_isPyDigit (c : Char) (h : isNdChar c = true) : isPyDigitChar c = true := by
  simp [isPyDigitChar, h]

theorem pyTokenOfPiece_of_inv (p : Bool × List Char)
    (h1 : p.1 = true → p.2 ≠ [] ∧ ∀ c ∈ p.2, isNdChar c = true)
    (h2 : p.1 = false → ∀ c ∈ p.2, isNdChar c = false)
    (h3 : ∀ c ∈ p.2, isPyDigitChar c = true → isNdChar c = true) :
    pyTokenOfPiece p.2 = some (convPiece p) := by
  obtain ⟨b, t⟩ := p
  cases b with
  | true =>
    obtain ⟨hne, hall⟩ := h1 rfl
    have hd : pyIsDigitStr t = true := by
      simp [pyIsDigitStr, List.all_eq_true]
      constructor
      · simpa [List.isEmpty_iff] using hne
      · intro c hc
        exact isNd_imp_isPyDigit c (hall c hc)
    have ha : t.all isNdChar = true := by
      simp [List.all_eq_true]
      intro c hc
      exact hall c hc
    simp [pyTokenOfPiece, hd, ha, convPiece]
  | false =>
    have hfd : pyIsDigitStr t = false := by
      cases t with
      | nil => simp [pyIsDigitStr]
      | cons c0 t' =>
        have hnd : isNdChar c0 = false := h2 rfl c0 (List.mem_cons_self _ _)
        have hpd : isPyDigitChar c0 = false := by
          by_cases hp : isPyDigitChar c0 = true
          · have := h3 c0 (List.mem_cons_self _ _) hp
            rw [hnd] at this
            simp at this
          · simpa using hp
        simp [pyIsDigitStr, hpd]
    simp [pyTokenOfPiece, hfd, convPiece]

theorem naturalSortKey_eq_total (name : String)
    (h : ∀ c ∈ name.toList, isPyDigitChar c = true → isNdChar c = true) :
    naturalSortKey name = some (naturalKeyTotal name) := by
  rw [naturalSortKey, naturalKeyTotal]
  apply tokensOfPieces_eq_map convPiece
  intro p hp
  have hinv := pySplit_pieces name.toList p hp
  apply pyTokenOfPiece_of_inv
  · intro hb
    obtain ⟨hne, hall⟩ := hinv.1 hb
    exact ⟨hne, fun c hc => (hall c hc).1⟩
  · intro hb
    exact fun c hc => ((hinv.2 hb) c hc).1
  · intro c hc hpd
    rcases hbv : p.1 with _ | _
    · have := (hinv.2 hbv) c hc
      exact h c this.2 hpd
    · exact ((hinv.1 hbv).2 c hc).1

theorem filter_conv_addTrailing :
    ∀ l : List (Bool × List Char),
      ((addTrailingEmpty l).map convPiece).filter (fun t => t ≠ Tok.str []) =
        (l.map convPiece).filter (fun t => t ≠ Tok.str []) := by
  intro l
  induction l with
  | nil => simp [addTrailingEmpty, convPiece, pyLower]
  | cons a l ih =>
    cases l with
    | nil =>
      obtain ⟨b, r⟩ := a
      cases b with
      | false => rfl
      | true =>
        show ((List.map convPiece [(true, r), (false, [])]).filter
            (fun t => t ≠ Tok.str [])) = _
        simp [convPiece, pyLower, List.filter_cons]
    | cons a2 l2 =>
      rw [show addTrailingEmpty (a :: a2 :: l2) = a :: addTrailingEmpty (a2 :: l2) from rfl]
      simp only [List.map_cons, List.filter_cons]
      rw [ih]
      simp only [List.map_cons, List.filter_cons]

theorem filter_conv_digitRuns (cs : List Char) :
    ((digitRuns cs).map convPiece).filter (fun t => t ≠ Tok.str []) =
      (digitRuns cs).map convPiece := by
  apply List.filter_eq_self.mpr
  intro t ht
  rcases List.mem_map.mp ht with ⟨pr, hpr, rfl⟩
  have hinv := digitRuns_inv cs pr hpr
  rcases hb : pr.1 with _ | _
  · have hlen : pyLower pr.2 ≠ [] := by
      intro hcon
      apply hinv.1
      have := congrArg List.length hcon
      simp [pyLower] at this
      exact this
    simp [convPiece, hb, hlen]
  · simp [convPiece, hb]

theorem filter_total_eq_claim (name : String) :
    (naturalKeyTotal name).filter (fun t => t ≠ Tok.str []) = claimNaturalKey name := by
  have h0 : naturalKeyTotal name = (pySplit name.toList).map convPiece := rfl
  have h1 : claimNaturalKey name = (digitRuns name.toList).map convPiece := rfl
  rw [h0, h1, pySplit]
  rcases h : digitRuns name.toList with _ | ⟨⟨b, r⟩, rest⟩
  · dsimp only
    simp [addTrailingEmpty, convPiece, pyLower]
  · cases b with
    | false =>
      dsimp only
      rw [filter_conv_addTrailing]
      rw [← h]
      exact filter_conv_digitRuns name.toList
    | true =>
      dsimp only
      have hhead :
          ((List.map convPiece
              ((false, []) :: addTrailingEmpty ((true, r) :: rest))).filter
            (fun t => t ≠ Tok.str [])) =
            ((List.map convPiece (addTrailingEmpty ((true, r) :: rest))).filter
              (fun t => t ≠ Tok.str [])) := by
        simp [List.filter_cons, convPiece, pyLower]
      rw [show addTrailingEmpty ((false, []) :: (true, r) :: rest) =
            (false, []) :: addTrailingEmpty ((true, r) :: rest) from rfl]
      rw [hhead, filter_conv_addTrailing, ← h]
      exact filter_conv_digitRuns name.toList

theorem digitRuns_altTags : ∀ cs : List Char, altTags (digitRuns cs) := by
  intro cs
  induction cs with
  | nil => exact trivial
  | cons c cs ih =>
    rcases h : digitRuns cs with _ | ⟨⟨b, run⟩, rest⟩
    · rw [digitRuns, h]
      exact trivial
    · rw [digitRuns, h]
      dsimp only
      rw [h] at ih
      by_cases hEq : isNdChar c = b
      · rw [if_pos hEq]
        cases rest with
        | nil => exact trivial
        | cons y t =>
          obtain ⟨h1, h2⟩ := ih
          exact ⟨h1, h2⟩
      · rw [if_neg hEq]
        exact ⟨hEq, ih⟩

theorem altTags_to_altFrom :
    ∀ (l : List (Bool × List Char)) (b : Bool),
      altTags l → (∀ x t, l = x :: t → x.1 = b) → altFromTags b l := by
  intro l
  induction l with
  | nil => intro b _ _; exact trivial
  | cons x l' ih =>
    intro b halt hhead
    have hx : x.1 = b := hhead x l' rfl
    refine ⟨hx, ?_⟩
    cases l' with
    | nil => exact trivial
    | cons y t =>
      obtain ⟨hne, htail⟩ := halt
      have hy : y.1 = !b := by
        rw [hx] at hne
        cases hyv : y.1 <;> cases b <;> simp_all
      apply ih (!b) htail
      intro z tz hz
      have hzy : z = y := by
        injection hz with hz1 _
        exact hz1.symm
      rw [hzy, hy]

theorem addTrailing_altFrom :
    ∀ (l : List (Bool × List Char)) (b : Bool),
      l ≠ [] → altFromTags b l → altFromTags b (addTrailingEmpty l) := by
  intro l
  induction l with
  | nil => intro b h _; exact absurd rfl h
  | cons x l' ih =>
    intro b _ halt
    obtain ⟨hx, halt'⟩ := halt
    cases l' with
    | nil =>
      obtain ⟨xb, xr⟩ := x
      cases xb with
      | true =>
        have hb : b = true := by simpa using hx.symm
        subst hb
        exact ⟨hx, rfl, trivial⟩
      | false =>
        exact ⟨hx, trivial⟩
    | cons y t =>
      exact ⟨hx, ih (!b) (by simp) halt'⟩

theorem pySplit_altFalse (cs : List Char) : altFromTags false (pySplit cs) := by
  rw [pySplit]
  rcases h : digitRuns cs with _ | ⟨⟨b, r⟩, rest⟩
  · dsimp only
    exact ⟨rfl, trivial⟩
  · have hat : altTags ((b, r) :: rest) := by rw [← h]; exact digitRuns_altTags cs
    cases b with
    | false =>
      dsimp only
      apply addTrailing_altFrom _ false (by simp)
      apply altTags_to_altFrom _ false hat
      intro x t hx
      injection hx with h1 _
      rw [← h1]
    | true =>
      dsimp only
      apply addTrailing_altFrom _ false (by simp)
      refine ⟨rfl, ?_⟩
      apply altTags_to_altFrom _ true hat
      intro x t hx
      injection hx with h1 _
      rw [← h1]

theorem pyTokenOfPiece_isInt (p : Bool × List Char) (t : Tok)
    (h1 : p.1 = true → p.2 ≠ [] ∧ ∀ c ∈ p.2, isNdChar c = true)
    (h2 : p.1 = false → ∀ c ∈ p.2, isNdChar c = false)
    (h : pyTokenOfPiece p.2 = some t) : Tok.isInt t = p.1 := by
  obtain ⟨b, r⟩ := p
  cases b with
  | true =>
    obtain ⟨hne, hall⟩ := h1 rfl
    have hd : pyIsDigitStr r = true := by
      simp [pyIsDigitStr, List.all_eq_true]
      constructor
      · simpa [List.isEmpty_iff] using hne
      · intro c hc
        exact isNd_imp_isPyDigit c (hall c hc)
    have ha : r.all isNdChar = true := by
      simp [List.all_eq_true]
      intro c hc
      exact hall c hc
    rw [pyTokenOfPiece, hd, if_pos rfl, ha, if_pos rfl] at h
    injection h with h3
    rw [← h3]
    rfl
  | false =>
    by_cases hd : pyIsDigitStr r = true
    · cases r with
      | nil => simp [pyIsDigitStr] at hd
      | cons c0 r' =>
        have hnd : isNdChar c0 = false := h2 rfl c0 (List.mem_cons_self _ _)
        have hall : (c0 :: r').all isNdChar = false := by
          simp [List.all_cons, hnd]
        rw [pyTokenOfPiece, hd, if_pos rfl, hall] at h
        rw [if_neg (by simp)] at h
        simp at h
    · have hd' : pyIsDigitStr r = false := by simpa using hd
      rw [pyTokenOfPiece, hd'] at h
      simp at h
      rw [← h]
      rfl

theorem tokensOfPieces_forall2 :
    ∀ (l : List (Bool × List Char)) (key : List Tok),
      (∀ p ∈ l, (p.1 = true → p.2 ≠ [] ∧ ∀ c ∈ p.2, isNdChar c = true) ∧
        (p.1 = false → ∀ c ∈ p.2, isNdChar c = false)) →
      tokensOfPieces l = some key →
      List.Forall₂ (fun p t => Tok.isInt t = p.1) l key := by
  intro l
  induction l with
  | nil =>
    intro key _ h
    simp [tokensOfPieces] at h
    rw [h]
    constructor
  | cons p rest ih =>
    intro key hinv h
    rw [tokensOfPieces] at h
    rcases hpt : pyTokenOfPiece p.2 with _ | t
    · rw [hpt] at h
      simp at h
    · rw [hpt] at h
      rcases hrt : tokensOfPieces rest with _ | ts
      · rw [hrt] at h
        simp at h
      · rw [hrt] at h
        simp at h
        rw [← h]
        constructor
        · exact pyTokenOfPiece_isInt p t (hinv p (List.mem_cons_self _ _)).1
            (hinv p (List.mem_cons_self _ _)).2 hpt
        · exact ih ts (fun q hq => hinv q (List.mem_cons_of_mem _ hq)) hrt

theorem bne_not_left (b d : Bool) : ((!b) != d) = (b != !d) := by
  cases b <;> cases d <;> rfl

theorem parity_succ (i : ℕ) : decide ((i + 1) % 2 = 1) = !(decide (i % 2 = 1)) := by
  rcases Nat.mod_two_eq_zero_or_one i with h | h <;> simp [Nat.add_mod, h]

theorem parity_get :
    ∀ (l : List (Bool × List Char)) (key : List Tok),
      List.Forall₂ (fun p t => Tok.isInt t = p.1) l key →
      ∀ (b : Bool), altFromTags b l →
      ∀ (i : ℕ) (h : i < key.length),
        (key.get ⟨i, h⟩).isInt = (b != decide (i % 2 = 1)) := by
  intro l key hf
  induction hf with
  | nil =>
    intro b _ i h
    simp at h
  | cons hpt hf2 ih =>
    intro b halt i h
    obtain ⟨hb, halt'⟩ := halt
    cases i with
    | zero =>
      show Tok.isInt _ = _
      rw [List.get]
      rw [hpt, hb]
      simp
    | succ i =>
      have hlt : i < _ := Nat.lt_of_succ_lt_succ h
      have hih := ih (!b) halt' i hlt
      rw [List.get]
      rw [hih, parity_succ, bne_not_left]

theorem naturalSortKey_parity (name : String) (key : List Tok)
    (h : naturalSortKey name = some key) :
    ∀ (i : ℕ) (hi : i < key.length), (key.get ⟨i, hi⟩).isInt = decide (i % 2 = 1) := by
  have hinv : ∀ p ∈ pySplit name.toList,
      (p.1 = true → p.2 ≠ [] ∧ ∀ c ∈ p.2, isNdChar c = true) ∧
      (p.1 = false → ∀ c ∈ p.2, isNdChar c = false) := by
    intro p hp
    have := pySplit_pieces name.toList p hp
    exact ⟨fun hb => ⟨(this.1 hb).1, fun c hc => ((this.1 hb).2 c hc).1⟩,
      fun hb => fun c hc => ((this.2 hb) c hc).1⟩
  have hf := tokensOfPieces_forall2 (pySplit name.toList) key hinv h
  intro i hi
  have := parity_get (pySplit name.toList) key hf false (pySplit_altFalse name.toList) i hi
  simpa using this

/-- C5 counterexample: the claim says empty tokens are dropped, but
`natural_sort_key("1")` is `['', 1, '']` — `re.split` produces empty boundary
pieces and the loop keeps them — whereas the claimed key would be `[1]`. -/
theorem c5_empty_tokens_not_dropped :
    naturalSortKey "1" = some [Tok.str [], Tok.int 1, Tok.str []] ∧
    claimNaturalKey "1" = [Tok.int 1] ∧
    naturalSortKey "1" ≠ some (claimNaturalKey "1") := by
  refine ⟨by decide, by decide, by decide⟩

/-- C5 (amended): for every name in which each character passing `isdigit` is
a decimal digit, `natural_sort_key` splits on maximal digit runs and returns
the digit runs as integers and the non-digit runs lower-cased, with the empty
boundary string tokens RETAINED (not dropped); removing the empty string
tokens yields exactly the claimed sequence of converted maximal runs. -/
theorem c5_natural_key_amended :
    ∀ name : String,
      (∀ c ∈ name.toList, isPyDigitChar c = true → isNdChar c = true) →
      naturalSortKey name = some (naturalKeyTotal name) ∧
      (naturalKeyTotal name).filter (fun t => t ≠ Tok.str []) = claimNaturalKey name :=
  fun name h => ⟨naturalSortKey_eq_total name h, filter_total_eq_claim name⟩

/-- C5 witness: the amended theorem applied at a concrete name. -/
theorem c5_natural_key_amended_witness :
    (∀ c ∈ "file10.txt".toList, isPyDigitChar c = true → isNdChar c = true) ∧
    (naturalSortKey "file10.txt" = some (naturalKeyTotal "file10.txt") ∧
      (naturalKeyTotal "file10.txt").filter (fun t => t ≠ Tok.str []) =
        claimNaturalKey "file10.txt") :=
  ⟨by decide, c5_natural_key_amended "file10.txt" (by decide)⟩

/-- C6 counterexample: the claim says `natural_sort_key` never raises, but on
the name `"²"` (and `"1²"`) the piece `"²"` passes `isdigit` while `int`
rejects it, so the call raises `ValueError` (modelled by `none`). -/
theorem c6_superscript_digit_raises :
    naturalSortKey "²" = none ∧ naturalSortKey "1²" = none := by
  refine ⟨by decide, by decide⟩

/-- C6 (amended): `natural_sort_key` returns a key for every filename in
which each character passing `isdigit` is a decimal digit (it raises on
names containing digit-property characters such as superscripts), and any two
produced keys are comparable element-wise — integer tokens occur exactly at
odd positions, so an integer position never meets a string position and
sorting by the key is total on names whose keys are produced. -/
theorem c6_natural_key_safety_amended :
    (∀ name : String,
      (∀ c ∈ name.toList, isPyDigitChar c = true → isNdChar c = true) →
      naturalSortKey name = some (naturalKeyTotal name)) ∧
    (∀ (n1 n2 : String) (k1 k2 : List Tok),
      naturalSortKey n1 = some k1 → naturalSortKey n2 = some k2 →
      ∀ (i : ℕ) (h1 : i < k1.length) (h2 : i < k2.length),
        (k1.get ⟨i, h1⟩).isInt = (k2.get ⟨i, h2⟩).isInt) := by
  constructor
  · exact naturalSortKey_eq_total
  · intro n1 n2 k1 k2 hk1 hk2 i h1 h2
    rw [naturalSortKey_parity n1 k1 hk1 i h1, naturalSortKey_parity n2 k2 hk2 i h2]

/-- C6 witness: the safety part applied at a concrete name, and the
comparability part at two concrete keys. -/
theorem c6_natural_key_safety_amended_witness :
    ((∀ c ∈ "a2".toList, isPyDigitChar c = true → isNdChar c = true) ∧
      naturalSortKey "a2" = some (naturalKeyTotal "a2")) ∧
    (naturalSortKey "a10" = some (naturalKeyTotal "a10") ∧
      ∀ (i : ℕ) (h1 : i < (naturalKeyTotal "a2").length)
        (h2 : i < (naturalKeyTotal "a10").length),
        ((naturalKeyTotal "a2").get ⟨i, h1⟩).isInt =
          ((naturalKeyTotal "a10").get ⟨i, h2⟩).isInt) :=
  ⟨⟨by decide, c6_natural_key_safety_amended.1 "a2" (by decide)⟩,
   ⟨by decide,
    c6_natural_key_safety_amended.2 "a2" "a10" (naturalKeyTotal "a2") (naturalKeyTotal "a10")
      (by decide) (by decide)⟩⟩
